import Mathlib

/-!
Shallow embedding of the Redis-backed cache component (`cache/cache.go`) of
the celeritas repository, together with a model of the backing key-value
store's wire protocol (spec §6) sufficient to state and prove the
specification's claims about the cache operations. The backing store itself
is an external collaborator of the repository, so its command semantics
(EXISTS, GET, SET, SETEX, DEL, SCAN) are modelled from §6 of the spec; the
cache operations are translated from `cache/cache.go`.
-/

namespace Celeritas

/-- Model of a Go value that can be handed to the cache. `vchan` stands for a
value kind (such as a channel) that the gob codec cannot serialize. -/
inductive GoVal
  | vstr (s : String)
  | vint (n : Int)
  | vbool (b : Bool)
  | vchan (id : Nat)
deriving DecidableEq

/-- Whether the gob codec can serialize this value. -/
def GoVal.gobEncodable : GoVal → Bool
  | .vchan _ => false
  | _ => true

/-- Embeds `type Entry map[string]interface{}` (cache.go line 42) as an
association list from field name to value. -/
abbrev Entry := List (String × GoVal)

/-- Model of a byte slice stored at a wire key: either the gob encoding of an
`Entry`, or bytes that do not decode into an `Entry`. -/
inductive GobData
  | ofEntry (e : Entry)
  | garbage (n : Nat)
deriving DecidableEq

/-- Embeds `encode` (cache.go lines 78-85): gob-serializes an Entry, failing
when some value in it is not gob-encodable. -/
def encode (item : Entry) : Except String GobData :=
  if item.all (fun kv => kv.2.gobEncodable) then Except.ok (GobData.ofEntry item)
  else Except.error "failed to encode entry"

/-- Embeds `decode` (cache.go lines 95-103): gob-deserializes bytes into an
Entry, failing on malformed input. -/
def decode (data : GobData) : Except String Entry :=
  match data with
  | GobData.ofEntry e => Except.ok e
  | GobData.garbage _ => Except.error "failed to decode data"

/-- One stored wire key's state in the backing store: the stored bytes and
the absolute expiry instant, if any. -/
structure Slot where
  data : GobData
  expiresAt : Option Int
deriving DecidableEq

/-- Model of the backing key-value store (spec §6): its clock and the stored
keys in insertion order. -/
structure Server where
  now : Int
  keys : List (String × Slot)
deriving DecidableEq

/-- The bytes stored live at a wire key: `none` when the key is absent or its
expiry has passed (the store owns expiry: an expired key reads as missing,
spec §3 Lifecycle). -/
def Server.liveData (srv : Server) (k : String) : Option GobData :=
  match srv.keys.lookup k with
  | some sl =>
    match sl.expiresAt with
    | none => some sl.data
    | some t => if srv.now < t then some sl.data else none
  | none => none

/-- Store or overwrite a wire key, keeping list position on overwrite. -/
def setKey : List (String × Slot) → String → Slot → List (String × Slot)
  | [], k, sl => [(k, sl)]
  | (k', sl') :: rest, k, sl =>
    if k' = k then (k, sl) :: rest else (k', sl') :: setKey rest k sl

/-- Remove every listed wire key from the store. -/
def Server.removeKeys (srv : Server) (ks : List String) : Server :=
  { srv with keys := srv.keys.filter (fun kv => !(decide (kv.1 ∈ ks))) }

/-- Glob matching over character lists with `*` as the only wildcard
(spec §4.1: patterns use `*` as wildcard): a star matches when the rest of
the pattern matches some suffix of the text. -/
def globMatchL : List Char → List Char → Bool
  | [], s => s.isEmpty
  | p :: ps, s =>
    if p = '*' then (List.tails s).any (fun t => globMatchL ps t)
    else
      match s with
      | [] => false
      | ch :: cs => p == ch && globMatchL ps cs

/-- Glob matching on strings. -/
def globMatch (pat s : String) : Bool := globMatchL pat.data s.data

/-- The cursor the store hands back from a scan step at cursor `cur` with
count `cnt` (0 signals scan completion, spec §4.3). -/
def nextCursor (srv : Server) (cur cnt : Nat) : Nat :=
  if cur + cnt < srv.keys.length then cur + cnt else 0

/-- The wire commands the cache issues (spec §6). -/
inductive Cmd
  | EXISTS (key : String)
  | GET (key : String)
  | SET (key : String) (data : GobData)
  | SETEX (key : String) (ttl : Int) (data : GobData)
  | DEL (keys : List String)
  | SCAN (cursor : Nat) (pat : String) (count : Nat)
deriving DecidableEq

/-- A reply from the backing store. -/
inductive Reply
  | rint (n : Int)
  | rbulk (data : GobData)
  | rnil
  | rok
  | rscan (cursor : Nat) (ks : List String)
  | rerr (msg : String)
deriving DecidableEq

/-- Executes one command on the store model (spec §6 wire protocol). SETEX
with a non-positive expiry is a store error, and SET clears any expiry; a
SCAN step walks `cnt` slots of the key space from `cur` and returns those
matching the glob pattern. -/
def Server.exec (srv : Server) (c : Cmd) : Reply × Server :=
  match c with
  | Cmd.EXISTS k => (Reply.rint (if (srv.liveData k).isSome then 1 else 0), srv)
  | Cmd.GET k =>
    (match srv.liveData k with
     | some d => Reply.rbulk d
     | none => Reply.rnil, srv)
  | Cmd.SET k d =>
    (Reply.rok, { srv with keys := setKey srv.keys k { data := d, expiresAt := none } })
  | Cmd.SETEX k t d =>
    if t ≤ 0 then (Reply.rerr "invalid expire time in SETEX", srv)
    else
      (Reply.rok,
       { srv with keys := setKey srv.keys k { data := d, expiresAt := some (srv.now + t) } })
  | Cmd.DEL ks =>
    (Reply.rint ((ks.filter (fun k => (srv.liveData k).isSome)).length), srv.removeKeys ks)
  | Cmd.SCAN cur pat cnt =>
    let names := srv.keys.map Prod.fst
    (Reply.rscan (nextCursor srv cur cnt) (((names.drop cur).take cnt).filter (globMatch pat)),
     srv)

/-- Client-side view of the system: the store plus a transport-fault oracle,
one flag per command (`true` = that command fails in transport). -/
structure St where
  srv : Server
  faults : List Bool
deriving DecidableEq

/-- Events observable about one cache operation: pool borrows and releases,
and the wire commands issued (spec §5 resource discipline). -/
inductive Event
  | acquire
  | release
  | cmd (c : Cmd)
deriving DecidableEq

/-- Issue one command over a borrowed connection: consume one fault flag; a
transport fault loses the command, otherwise the store executes it. A store
error reply surfaces as a Go error, as redigo's `Do` does. -/
def doCmd (c : Cmd) (s : St) : Except String Reply × St :=
  if s.faults.headD false then
    (Except.error "transport failure", { srv := s.srv, faults := s.faults.tail })
  else
    let r := s.srv.exec c
    (match r.1 with
     | Reply.rerr m => Except.error m
     | rep => Except.ok rep,
     { srv := r.2, faults := s.faults.tail })

/-- Embeds the `RedisCache` struct (cache.go lines 35-38); the connection
pool is modelled by the borrow and release events each operation emits. -/
structure RedisCache where
  Prefix : String

/-- The wire key for a logical key: `fmt.Sprintf("%s:%s", c.Prefix, str)`
(spec §4.4 Key Namespacer). -/
def RedisCache.wireKey (c : RedisCache) (str : String) : String :=
  c.Prefix ++ ":" ++ str

/-- Embeds Go's `strings.HasSuffix`. -/
def strHasSuffix (s suffixStr : String) : Bool :=
  suffixStr.data.isSuffixOf s.data

/-- The match pattern `getKeys` sends to SCAN (cache.go lines 309-314): the
caller's pattern plus a wildcard, with the separator added unless the
pattern already ends in it. -/
def wirePat (pattern : String) : String :=
  if strHasSuffix pattern ":" then pattern ++ "*" else pattern ++ ":*"

/-- The scan loop of `getKeys` (cache.go lines 316-337), fuelled for
totality: each step issues SCAN, appends the returned keys, and stops when
the returned cursor is 0 or a step fails. `getKeys` passes enough fuel that
it never runs out on the store model. -/
def scanLoop (mp : String) : Nat → Nat → List String → St →
    (List String × Option String) × St × List Event
  | 0, _, keys, s => ((keys, some "scan fuel exhausted"), s, [])
  | fuel + 1, iter, keys, s =>
    let sc := Cmd.SCAN iter mp 1000
    let r := doCmd sc s
    match r.1 with
    | Except.error e =>
      ((keys, some ("scan failed for pattern " ++ mp ++ ": " ++ e)), r.2, [Event.cmd sc])
    | Except.ok (Reply.rscan next ks) =>
      if next = 0 then ((keys ++ ks, none), r.2, [Event.cmd sc])
      else
        let res := scanLoop mp fuel next (keys ++ ks) r.2
        (res.1, res.2.1, Event.cmd sc :: res.2.2)
    | Except.ok _ =>
      ((keys, some ("failed to parse scan reply for pattern " ++ mp)), r.2, [Event.cmd sc])

/-- Embeds `getKeys` (cache.go lines 299-340): borrows its own pooled
connection, runs the scan loop from cursor 0, and releases the connection.
Like the Go function it returns both the keys gathered so far and an
optional error. -/
def RedisCache.getKeys (c : RedisCache) (pattern : String) (s : St) :
    (List String × Option String) × St × List Event :=
  let res := scanLoop (wirePat pattern) (s.srv.keys.length + 1) 0 [] s
  (res.1, res.2.1, Event.acquire :: (res.2.2 ++ [Event.release]))

/-- Embeds `Has` (cache.go lines 54-68). -/
def RedisCache.Has (c : RedisCache) (str : String) (s : St) :
    Except String Bool × St × List Event :=
  let key := c.wireKey str
  let evs := [Event.acquire, Event.cmd (Cmd.EXISTS key), Event.release]
  let r := doCmd (Cmd.EXISTS key) s
  match r.1 with
  | Except.error e =>
    (Except.error ("failed to check existence of key " ++ key ++ ": " ++ e), r.2, evs)
  | Except.ok (Reply.rint n) => (Except.ok (n != 0), r.2, evs)
  | Except.ok _ => (Except.error ("failed to check existence of key " ++ key), r.2, evs)

/-- Embeds `Get` (cache.go lines 117-144): a nil reply is a miss `(nil,
nil)`; stored bytes that fail to decode, or a decoded Entry without the
"value" field, are distinct errors. -/
def RedisCache.Get (c : RedisCache) (str : String) (s : St) :
    Except String (Option GoVal) × St × List Event :=
  let key := c.wireKey str
  let evs := [Event.acquire, Event.cmd (Cmd.GET key), Event.release]
  let r := doCmd (Cmd.GET key) s
  match r.1 with
  | Except.error e => (Except.error ("failed to get key " ++ key ++ ": " ++ e), r.2, evs)
  | Except.ok Reply.rnil => (Except.ok none, r.2, evs)
  | Except.ok (Reply.rbulk d) =>
    match decode d with
    | Except.error e =>
      (Except.error ("failed to decode data for key " ++ key ++ ": " ++ e), r.2, evs)
    | Except.ok decoded =>
      match decoded.lookup "value" with
      | some v => (Except.ok (some v), r.2, evs)
      | none =>
        (Except.error ("invalid cache format for key " ++ key ++ ": missing value field"),
         r.2, evs)
  | Except.ok _ => (Except.error ("failed to get key " ++ key), r.2, evs)

/-- Embeds `Set` (cache.go lines 158-182): wraps the value in an Entry under
the "value" field, encodes it, and writes with SETEX when a TTL argument is
present (Go variadic `expires ...int`), with SET otherwise. -/
def RedisCache.Set (c : RedisCache) (str : String) (value : GoVal)
    (expires : List Int) (s : St) : Except String Unit × St × List Event :=
  let key := c.wireKey str
  match encode [("value", value)] with
  | Except.error e =>
    (Except.error ("failed to encode value for key " ++ key ++ ": " ++ e), s,
     [Event.acquire, Event.release])
  | Except.ok encoded =>
    match expires with
    | t :: _ =>
      let r := doCmd (Cmd.SETEX key t encoded) s
      ((match r.1 with
        | Except.error e => Except.error ("failed to set key " ++ key ++ ": " ++ e)
        | Except.ok _ => Except.ok ()), r.2,
       [Event.acquire, Event.cmd (Cmd.SETEX key t encoded), Event.release])
    | [] =>
      let r := doCmd (Cmd.SET key encoded) s
      ((match r.1 with
        | Except.error e => Except.error ("failed to set key " ++ key ++ ": " ++ e)
        | Except.ok _ => Except.ok ()), r.2,
       [Event.acquire, Event.cmd (Cmd.SET key encoded), Event.release])

/-- Embeds `Forget` (cache.go lines 193-207): one DEL of the wire key. -/
def RedisCache.Forget (c : RedisCache) (str : String) (s : St) :
    Except String Unit × St × List Event :=
  let key := c.wireKey str
  let evs := [Event.acquire, Event.cmd (Cmd.DEL [key]), Event.release]
  let r := doCmd (Cmd.DEL [key]) s
  match r.1 with
  | Except.error e => (Except.error ("failed to delete key " ++ key ++ ": " ++ e), r.2, evs)
  | Except.ok _ => (Except.ok (), r.2, evs)

/-- Embeds `EmptyByMatch` (cache.go lines 219-247): borrows a connection,
gathers the matching keys through `getKeys` (which borrows a second one),
and deletes them all in one DEL unless none matched. -/
def RedisCache.EmptyByMatch (c : RedisCache) (pattern : String) (s : St) :
    Except String Unit × St × List Event :=
  let matchPattern := c.Prefix ++ ":" ++ pattern
  let g := c.getKeys matchPattern s
  match g.1.2 with
  | some e =>
    (Except.error ("failed to get keys for pattern " ++ matchPattern ++ ": " ++ e), g.2.1,
     Event.acquire :: (g.2.2 ++ [Event.release]))
  | none =>
    if g.1.1.length = 0 then
      (Except.ok (), g.2.1, Event.acquire :: (g.2.2 ++ [Event.release]))
    else
      let r := doCmd (Cmd.DEL g.1.1) g.2.1
      ((match r.1 with
        | Except.error e =>
          Except.error ("failed to delete " ++ toString g.1.1.length ++
            " keys for pattern " ++ matchPattern ++ ": " ++ e)
        | Except.ok _ => Except.ok ()), r.2,
       Event.acquire :: (g.2.2 ++ [Event.cmd (Cmd.DEL g.1.1), Event.release]))

/-- Embeds `Empty` (cache.go lines 259-287): like EmptyByMatch but the
pattern handed to `getKeys` is the bare namespace `fmt.Sprintf("%s:",
c.Prefix)`. -/
def RedisCache.Empty (c : RedisCache) (s : St) :
    Except String Unit × St × List Event :=
  let pattern := c.Prefix ++ ":"
  let g := c.getKeys pattern s
  match g.1.2 with
  | some e =>
    (Except.error ("failed to get keys for prefix " ++ pattern ++ ": " ++ e), g.2.1,
     Event.acquire :: (g.2.2 ++ [Event.release]))
  | none =>
    if g.1.1.length = 0 then
      (Except.ok (), g.2.1, Event.acquire :: (g.2.2 ++ [Event.release]))
    else
      let r := doCmd (Cmd.DEL g.1.1) g.2.1
      ((match r.1 with
        | Except.error e =>
          Except.error ("failed to delete " ++ toString g.1.1.length ++
            " keys for prefix " ++ pattern ++ ": " ++ e)
        | Except.ok _ => Except.ok ()), r.2,
       Event.acquire :: (g.2.2 ++ [Event.cmd (Cmd.DEL g.1.1), Event.release]))

/-- The wire commands among an operation's events. -/
def cmdsOf (evs : List Event) : List Cmd :=
  evs.filterMap (fun e => match e with | Event.cmd c => some c | _ => none)

/-- The argument lists of the DEL commands among an operation's events. -/
def delCmdsOf (evs : List Event) : List (List String) :=
  evs.filterMap (fun e => match e with | Event.cmd (Cmd.DEL ks) => some ks | _ => none)

/-- The cursors of the SCAN commands among an operation's events, in issue
order. -/
def scanCursorsOf (evs : List Event) : List Nat :=
  evs.filterMap (fun e => match e with | Event.cmd (Cmd.SCAN cur _ _) => some cur | _ => none)

/-- How many connections the events borrow from the pool. -/
def acqCount (evs : List Event) : Nat :=
  evs.countP (fun e => match e with | Event.acquire => true | _ => false)

/-- How many connections the events release back to the pool. -/
def relCount (evs : List Event) : Nat :=
  evs.countP (fun e => match e with | Event.release => true | _ => false)

/-- With `n` connections currently borrowed, every release in the event list
is matched by an earlier borrow (no release of an unborrowed connection). -/
def relSafe : Nat → List Event → Prop
  | _, [] => True
  | n, Event.acquire :: rest => relSafe (n + 1) rest
  | n, Event.release :: rest => n ≠ 0 ∧ relSafe (n - 1) rest
  | n, Event.cmd _ :: rest => relSafe n rest

/-- The operation borrowed `n` pooled connections in all, released each of
them before returning, and never released one it had not borrowed. -/
def borrows (n : Nat) (evs : List Event) : Prop :=
  acqCount evs = n ∧ relCount evs = n ∧ relSafe 0 evs

/-- The wire keys in the store that match a glob pattern, in store order. -/
def matchingKeys (srv : Server) (mp : String) : List String :=
  (srv.keys.map Prod.fst).filter (globMatch mp)

/-- The scan-cursor chain of spec §4.3 over the store model: the cursor list
starts at `cur`, each later cursor is the store's reply to the previous
step, and the chain stops exactly at the first reply of 0. -/
def cursorChain (srv : Server) : Nat → List Nat → Prop
  | _, [] => False
  | cur, [c0] => c0 = cur ∧ nextCursor srv cur 1000 = 0
  | cur, c0 :: c1 :: rest =>
    c0 = cur ∧ nextCursor srv cur 1000 ≠ 0 ∧
      cursorChain srv (nextCursor srv cur 1000) (c1 :: rest)

/-- Whether a Go-style result is an error. -/
def isErr {α : Type} (r : Except String α) : Bool :=
  match r with
  | Except.error _ => true
  | Except.ok _ => false

/-! Lemmas about the store model. -/

theorem lookup_setKey_self (l : List (String × Slot)) (k : String) (sl : Slot) :
    (setKey l k sl).lookup k = some sl := by
  induction l with
  | nil => simp [setKey, List.lookup]
  | cons kv rest ih =>
    obtain ⟨k', sl'⟩ := kv
    by_cases h : k' = k
    · subst h
      simp [setKey, List.lookup]
    · simp only [setKey, if_neg h, List.lookup]
      have : (k == k') = false := by
        simp [beq_eq_false_iff_ne]
        exact fun e => h e.symm
      simp [this, ih]

theorem lookup_filter_out (l : List (String × Slot)) (ks : List String) (k : String)
    (h : k ∈ ks) : (l.filter (fun kv => !(decide (kv.1 ∈ ks)))).lookup k = none := by
  induction l with
  | nil => simp [List.lookup]
  | cons kv rest ih =>
    by_cases hk : kv.1 ∈ ks
    · simp [List.filter_cons, hk, ih]
    · have hne : (k == kv.1) = false := by
        simp [beq_eq_false_iff_ne]
        exact fun e => hk (e ▸ h)
      simp [List.filter_cons, hk, List.lookup, hne, ih]

theorem lookup_removeKeys_mem (srv : Server) (ks : List String) (k : String) (h : k ∈ ks) :
    ((srv.removeKeys ks).keys).lookup k = none :=
  lookup_filter_out srv.keys ks k h

theorem lookup_filter_keep (l : List (String × Slot)) (ks : List String) (k : String)
    (h : k ∉ ks) : (l.filter (fun kv => !(decide (kv.1 ∈ ks)))).lookup k = l.lookup k := by
  induction l with
  | nil => simp
  | cons kv rest ih =>
    by_cases hk : kv.1 ∈ ks
    · have hne : (k == kv.1) = false := by
        simp [beq_eq_false_iff_ne]
        exact fun e => h (e ▸ hk)
      simp [List.filter_cons, hk, List.lookup, hne, ih]
    · simp only [List.filter_cons, decide_eq_true_eq, hk, decide_False, Bool.not_false,
        if_pos, List.lookup]
      by_cases he : k == kv.1
      · simp [he]
      · simp [he, ih]

theorem lookup_removeKeys_not_mem (srv : Server) (ks : List String) (k : String)
    (h : k ∉ ks) : ((srv.removeKeys ks).keys).lookup k = srv.keys.lookup k :=
  lookup_filter_keep srv.keys ks k h

/-! Lemmas about glob matching. -/

theorem globMatchL_star_any (s : List Char) : globMatchL ['*'] s = true := by
  simp [globMatchL, List.mem_tails]

theorem globMatchL_append_lit (lit p s : List Char) (h : ∀ ch ∈ lit, ch ≠ '*') :
    globMatchL (lit ++ p) (lit ++ s) = globMatchL p s := by
  induction lit with
  | nil => simp
  | cons c rest ih =>
    have hc : c ≠ '*' := h c (by simp)
    simp [globMatchL, hc, ih (fun ch hch => h ch (by simp [hch]))]

theorem globMatchL_lit_head (lit : List Char) (p : List Char) (h : ∀ ch ∈ lit, ch ≠ '*') :
    ∀ s : List Char, globMatchL (lit ++ p) s = true → lit <+: s := by
  induction lit with
  | nil => exact fun s _ => List.nil_prefix
  | cons c rest ih =>
    intro s hm
    have hc : c ≠ '*' := h c (by simp)
    cases s with
    | nil => simp [globMatchL, hc] at hm
    | cons ch cs =>
      simp only [List.cons_append, globMatchL, if_neg hc, Bool.and_eq_true, beq_iff_eq] at hm
      obtain ⟨rfl, h2⟩ := hm
      exact List.cons_prefix_cons.mpr ⟨rfl, ih (fun x hx => h x (by simp [hx])) cs h2⟩

/-! Lemmas about the scan loop. -/

theorem doCmd_scan (iter : Nat) (mp : String) (cnt : Nat) (s : St) :
    doCmd (Cmd.SCAN iter mp cnt) s =
      ((if s.faults.headD false then Except.error "transport failure"
        else Except.ok (Reply.rscan (nextCursor s.srv iter cnt)
          ((((s.srv.keys.map Prod.fst).drop iter).take cnt).filter (globMatch mp)))),
       { srv := s.srv, faults := s.faults.tail }) := by
  obtain ⟨srv, faults⟩ := s
  cases faults with
  | nil => simp [doCmd, Server.exec]
  | cons f rest => cases f <;> simp [doCmd, Server.exec]

theorem scanLoop_srv (mp : String) (fuel : Nat) :
    ∀ (iter : Nat) (keys : List String) (s : St),
      (scanLoop mp fuel iter keys s).2.1.srv = s.srv := by
  induction fuel with
  | zero => intro iter keys s; rfl
  | succ n ih =>
    intro iter keys s
    obtain ⟨srv, faults⟩ := s
    by_cases h0 : nextCursor srv iter 1000 = 0
    · cases faults with
      | nil => simp [scanLoop, doCmd, Server.exec, h0]
      | cons f rest => cases f <;> simp [scanLoop, doCmd, Server.exec, h0]
    · cases faults with
      | nil => simp [scanLoop, doCmd, Server.exec, h0, ih]
      | cons f rest => cases f <;> simp [scanLoop, doCmd, Server.exec, h0, ih]

theorem scanLoop_events (mp : String) (fuel : Nat) :
    ∀ (iter : Nat) (keys : List String) (s : St),
      ∀ e ∈ (scanLoop mp fuel iter keys s).2.2,
        ∃ cur, e = Event.cmd (Cmd.SCAN cur mp 1000) := by
  induction fuel with
  | zero => intro iter keys s e he; simp [scanLoop] at he
  | succ n ih =>
    intro iter keys s e he
    obtain ⟨srv, faults⟩ := s
    by_cases h0 : nextCursor srv iter 1000 = 0
    · cases faults with
      | nil =>
        simp [scanLoop, doCmd, Server.exec, h0] at he
        exact ⟨iter, by simp [he]⟩
      | cons f rest =>
        cases f <;> simp [scanLoop, doCmd, Server.exec, h0] at he <;>
          exact ⟨iter, by simp [he]⟩
    · cases faults with
      | nil =>
        simp [scanLoop, doCmd, Server.exec, h0] at he
        rcases he with h | h
        · exact ⟨iter, by simp [h]⟩
        · exact ih _ _ _ e h
      | cons f rest =>
        cases f with
        | true =>
          simp [scanLoop, doCmd, Server.exec, h0] at he
          exact ⟨iter, by simp [he]⟩
        | false =>
          simp [scanLoop, doCmd, Server.exec, h0] at he
          rcases he with h | h
          · exact ⟨iter, by simp [h]⟩
          · exact ih _ _ _ e h

theorem scanLoop_keys_sound (mp : String) (fuel : Nat) :
    ∀ (iter : Nat) (keys : List String) (s : St),
      ∀ x ∈ (scanLoop mp fuel iter keys s).1.1, x ∈ keys ∨ globMatch mp x = true := by
  induction fuel with
  | zero => intro iter keys s x hx; simp [scanLoop] at hx; exact Or.inl hx
  | succ n ih =>
    intro iter keys s x hx
    obtain ⟨srv, faults⟩ := s
    by_cases h0 : nextCursor srv iter 1000 = 0
    · cases faults with
      | nil =>
        simp [scanLoop, doCmd, Server.exec, h0] at hx
        rcases hx with h | h
        · exact Or.inl h
        · exact Or.inr h.2
      | cons f rest =>
        cases f with
        | true =>
          simp [scanLoop, doCmd, Server.exec, h0] at hx
          exact Or.inl hx
        | false =>
          simp [scanLoop, doCmd, Server.exec, h0] at hx
          rcases hx with h | h
          · exact Or.inl h
          · exact Or.inr h.2
    · cases faults with
      | nil =>
        simp only [scanLoop, doCmd, Server.exec] at hx
        simp only [List.headD_nil, Bool.false_eq_true, if_false, if_neg h0] at hx
        rcases ih _ _ _ x hx with h | h
        · rcases List.mem_append.mp h with h1 | h1
          · exact Or.inl h1
          · exact Or.inr (List.mem_filter.mp h1).2
        · exact Or.inr h
      | cons f rest =>
        cases f with
        | true =>
          simp [scanLoop, doCmd, Server.exec, h0] at hx
          exact Or.inl hx
        | false =>
          simp only [scanLoop, doCmd, Server.exec] at hx
          simp only [List.headD_cons, Bool.false_eq_true, if_false, if_neg h0] at hx
          rcases ih _ _ _ x hx with h | h
          · rcases List.mem_append.mp h with h1 | h1
            · exact Or.inl h1
            · exact Or.inr (List.mem_filter.mp h1).2
          · exact Or.inr h

theorem scanLoop_ok (mp : String) (fuel : Nat) :
    ∀ (iter : Nat) (keys : List String) (srv : Server),
      srv.keys.length ≤ iter + 1000 * fuel →
      (scanLoop mp (fuel + 1) iter keys ⟨srv, []⟩).1 =
          (keys ++ ((srv.keys.map Prod.fst).drop iter).filter (globMatch mp), none)
        ∧ (scanLoop mp (fuel + 1) iter keys ⟨srv, []⟩).2.1 = ⟨srv, []⟩
        ∧ cursorChain srv iter
            (scanCursorsOf (scanLoop mp (fuel + 1) iter keys ⟨srv, []⟩).2.2) := by
  induction fuel with
  | zero =>
    intro iter keys srv hlen
    have h0 : nextCursor srv iter 1000 = 0 := by
      simp only [nextCursor]
      rw [if_neg]
      omega
    have hdrop : (srv.keys.map Prod.fst).drop iter = [] := by
      apply List.drop_eq_nil_of_le
      simpa using hlen
    simp [scanLoop, doCmd, Server.exec, h0, hdrop, scanCursorsOf, cursorChain]
  | succ n ih =>
    intro iter keys srv hlen
    by_cases hlt : iter + 1000 < srv.keys.length
    · have h0 : nextCursor srv iter 1000 = iter + 1000 := by simp [nextCursor, hlt]
      have step := ih (iter + 1000)
        (keys ++ (((srv.keys.map Prod.fst).drop iter).take 1000).filter (globMatch mp))
        srv (by omega)
      obtain ⟨hres, hst, hchain⟩ := step
      have hsplit : ((srv.keys.map Prod.fst).drop iter) =
          ((srv.keys.map Prod.fst).drop iter).take 1000 ++
            ((srv.keys.map Prod.fst).drop (iter + 1000)) := by
        rw [← List.drop_drop]
        exact (List.take_append_drop 1000 _).symm
      rw [scanLoop, doCmd_scan]
      simp only [List.headD_nil, Bool.false_eq_true, if_false, List.tail_nil, h0]
      rw [if_neg (by omega : ¬ (iter + 1000 = 0))]
      refine ⟨?_, ?_, ?_⟩
      · rw [hres]
        rw [List.append_assoc, ← List.filter_append, ← hsplit]
      · exact hst
      · simp only [scanCursorsOf, List.filterMap_cons] at hchain ⊢
        revert hchain
        generalize (List.filterMap _
          (scanLoop mp (n + 1) (iter + 1000)
            (keys ++ (((srv.keys.map Prod.fst).drop iter).take 1000).filter (globMatch mp))
            ⟨srv, []⟩).2.2 : List Nat) = cs
        intro hchain
        cases cs with
        | nil => simp [cursorChain] at hchain
        | cons c1 rest =>
          exact ⟨rfl, by omega, by rw [h0]; exact hchain⟩
    · have h0 : nextCursor srv iter 1000 = 0 := by simp [nextCursor, hlt]
      have hdropfit : ((srv.keys.map Prod.fst).drop iter).take 1000 =
          (srv.keys.map Prod.fst).drop iter := by
        apply List.take_of_length_le
        simp
        omega
      simp [scanLoop, doCmd, Server.exec, h0, hdropfit, scanCursorsOf, cursorChain]

/-! Lemmas about getKeys and about operation event traces. -/

theorem scanCursorsOf_wrap (evs : List Event) :
    scanCursorsOf (Event.acquire :: (evs ++ [Event.release])) = scanCursorsOf evs := by
  simp [scanCursorsOf, List.filterMap_cons, List.filterMap_append]

theorem getKeys_srv (c : RedisCache) (p : String) (s : St) :
    (c.getKeys p s).2.1.srv = s.srv :=
  scanLoop_srv _ _ _ _ _

theorem getKeys_keys_sound (c : RedisCache) (p : String) (s : St) :
    ∀ x ∈ (c.getKeys p s).1.1, globMatch (wirePat p) x = true := by
  intro x hx
  rcases scanLoop_keys_sound (wirePat p) (s.srv.keys.length + 1) 0 [] s x hx with h | h
  · simp at h
  · exact h

theorem getKeys_ok (c : RedisCache) (p : String) (srv : Server) :
    (c.getKeys p ⟨srv, []⟩).1 = (matchingKeys srv (wirePat p), none)
    ∧ (c.getKeys p ⟨srv, []⟩).2.1 = ⟨srv, []⟩
    ∧ cursorChain srv 0 (scanCursorsOf (c.getKeys p ⟨srv, []⟩).2.2) := by
  obtain ⟨h1, h2, h3⟩ := scanLoop_ok (wirePat p) srv.keys.length 0 [] srv (by omega)
  refine ⟨?_, h2, ?_⟩
  · show (scanLoop (wirePat p) (srv.keys.length + 1) 0 [] ⟨srv, []⟩).1 = _
    rw [h1]
    simp [matchingKeys]
  · show cursorChain srv 0 (scanCursorsOf (Event.acquire ::
      ((scanLoop (wirePat p) (srv.keys.length + 1) 0 [] ⟨srv, []⟩).2.2 ++ [Event.release])))
    rw [scanCursorsOf_wrap]
    exact h3

theorem counts_cmds (evs : List Event) (h : ∀ e ∈ evs, ∃ cm, e = Event.cmd cm) :
    acqCount evs = 0 ∧ relCount evs = 0 := by
  induction evs with
  | nil => simp [acqCount, relCount]
  | cons e rest ih =>
    obtain ⟨cm, rfl⟩ := h e (by simp)
    have hr := ih (fun x hx => h x (by simp [hx]))
    simp only [acqCount, relCount, List.countP_cons] at hr ⊢
    simpa using hr

theorem relSafe_cmds_append (xs : List Event) (h : ∀ e ∈ xs, ∃ cm, e = Event.cmd cm) :
    ∀ (n : Nat) (ys : List Event), relSafe n ys → relSafe n (xs ++ ys) := by
  induction xs with
  | nil => intro n ys hy; simpa
  | cons e rest ih =>
    intro n ys hy
    obtain ⟨cm, rfl⟩ := h e (by simp)
    exact ih (fun x hx => h x (by simp [hx])) n ys hy

theorem acqCount_cons (e : Event) (l : List Event) :
    acqCount (e :: l) =
      acqCount l + (match e with | Event.acquire => 1 | _ => 0) := by
  cases e <;> simp [acqCount, List.countP_cons]

theorem relCount_cons (e : Event) (l : List Event) :
    relCount (e :: l) =
      relCount l + (match e with | Event.release => 1 | _ => 0) := by
  cases e <;> simp [relCount, List.countP_cons]

theorem acqCount_append (a b : List Event) :
    acqCount (a ++ b) = acqCount a + acqCount b := by
  simp [acqCount, List.countP_append]

theorem relCount_append (a b : List Event) :
    relCount (a ++ b) = relCount a + relCount b := by
  simp [relCount, List.countP_append]

theorem borrows_one_shape (mid : List Event) (h : ∀ e ∈ mid, ∃ cm, e = Event.cmd cm) :
    borrows 1 (Event.acquire :: (mid ++ [Event.release])) := by
  obtain ⟨ha, hr⟩ := counts_cmds mid h
  refine ⟨?_, ?_, ?_⟩
  · rw [acqCount_cons, acqCount_append, ha]
    rfl
  · rw [relCount_cons, relCount_append, hr]
    rfl
  · show relSafe 1 (mid ++ [Event.release])
    exact relSafe_cmds_append mid h 1 [Event.release] ⟨by omega, trivial⟩

theorem borrows_two_shape (inner extra : List Event)
    (hi : ∀ e ∈ inner, ∃ cm, e = Event.cmd cm)
    (he : ∀ e ∈ extra, ∃ cm, e = Event.cmd cm) :
    borrows 2 (Event.acquire ::
      ((Event.acquire :: (inner ++ [Event.release])) ++ (extra ++ [Event.release]))) := by
  obtain ⟨hia, hir⟩ := counts_cmds inner hi
  obtain ⟨hea, her⟩ := counts_cmds extra he
  refine ⟨?_, ?_, ?_⟩
  · rw [acqCount_cons, acqCount_append, acqCount_cons, acqCount_append, acqCount_append,
      hia, hea]
    rfl
  · rw [relCount_cons, relCount_append, relCount_cons, relCount_append, relCount_append,
      hir, her]
    rfl
  · show relSafe 1 ((Event.acquire :: (inner ++ [Event.release])) ++ (extra ++ [Event.release]))
    rw [List.cons_append, List.append_assoc]
    show relSafe 2 (inner ++ ([Event.release] ++ (extra ++ [Event.release])))
    refine relSafe_cmds_append inner hi 2 _ ?_
    show relSafe 2 (Event.release :: (extra ++ [Event.release]))
    refine ⟨by omega, ?_⟩
    exact relSafe_cmds_append extra he 1 [Event.release] ⟨by omega, trivial⟩

theorem Has_events (c : RedisCache) (str : String) (s : St) :
    (c.Has str s).2.2 =
      [Event.acquire, Event.cmd (Cmd.EXISTS (c.wireKey str)), Event.release] := by
  simp only [RedisCache.Has]
  split <;> rfl

theorem Get_events (c : RedisCache) (str : String) (s : St) :
    (c.Get str s).2.2 =
      [Event.acquire, Event.cmd (Cmd.GET (c.wireKey str)), Event.release] := by
  simp only [RedisCache.Get]
  split <;> first
    | rfl
    | (split <;> first
        | rfl
        | (split <;> rfl))

theorem Forget_events (c : RedisCache) (str : String) (s : St) :
    (c.Forget str s).2.2 =
      [Event.acquire, Event.cmd (Cmd.DEL [c.wireKey str]), Event.release] := by
  simp only [RedisCache.Forget]
  split <;> rfl

theorem Set_events (c : RedisCache) (str : String) (v : GoVal) (ts : List Int) (s : St) :
    ∃ mid, (∀ e ∈ mid, ∃ cm, e = Event.cmd cm) ∧
      (c.Set str v ts s).2.2 = Event.acquire :: (mid ++ [Event.release]) := by
  simp only [RedisCache.Set]
  split
  · exact ⟨[], by simp, rfl⟩
  · split
    · refine ⟨[Event.cmd (Cmd.SETEX (c.wireKey str) _ _)], ?_, rfl⟩
      intro e he
      simp at he
      exact ⟨_, he⟩
    · refine ⟨[Event.cmd (Cmd.SET (c.wireKey str) _)], ?_, rfl⟩
      intro e he
      simp at he
      exact ⟨_, he⟩

theorem EmptyByMatch_events (c : RedisCache) (pat : String) (s : St) :
    ∃ extra, (∀ e ∈ extra, ∃ cm, e = Event.cmd cm) ∧
      (c.EmptyByMatch pat s).2.2 =
        Event.acquire ::
          ((Event.acquire ::
            ((scanLoop (wirePat (c.Prefix ++ ":" ++ pat)) (s.srv.keys.length + 1) 0 [] s).2.2
              ++ [Event.release])) ++ (extra ++ [Event.release])) := by
  simp only [RedisCache.EmptyByMatch, RedisCache.getKeys]
  split
  · exact ⟨[], by simp, rfl⟩
  · split
    · exact ⟨[], by simp, rfl⟩
    · refine ⟨[Event.cmd (Cmd.DEL _)], ?_, rfl⟩
      intro e he
      simp at he
      exact ⟨_, he⟩

theorem Empty_events (c : RedisCache) (s : St) :
    ∃ extra, (∀ e ∈ extra, ∃ cm, e = Event.cmd cm) ∧
      (c.Empty s).2.2 =
        Event.acquire ::
          ((Event.acquire ::
            ((scanLoop (wirePat (c.Prefix ++ ":")) (s.srv.keys.length + 1) 0 [] s).2.2
              ++ [Event.release])) ++ (extra ++ [Event.release])) := by
  simp only [RedisCache.Empty, RedisCache.getKeys]
  split
  · exact ⟨[], by simp, rfl⟩
  · split
    · exact ⟨[], by simp, rfl⟩
    · refine ⟨[Event.cmd (Cmd.DEL _)], ?_, rfl⟩
      intro e he
      simp at he
      exact ⟨_, he⟩

theorem delCmdsOf_append (a b : List Event) :
    delCmdsOf (a ++ b) = delCmdsOf a ++ delCmdsOf b := by
  simp [delCmdsOf, List.filterMap_append]

theorem delCmdsOf_scanEvs (mp : String) (evs : List Event)
    (h : ∀ e ∈ evs, ∃ cur, e = Event.cmd (Cmd.SCAN cur mp 1000)) : delCmdsOf evs = [] := by
  induction evs with
  | nil => rfl
  | cons e rest ih =>
    obtain ⟨cur, rfl⟩ := h e (by simp)
    exact ih (fun x hx => h x (by simp [hx]))

theorem scanCursorsOf_append (a b : List Event) :
    scanCursorsOf (a ++ b) = scanCursorsOf a ++ scanCursorsOf b := by
  simp [scanCursorsOf, List.filterMap_append]

theorem removeKeys_nil (srv : Server) : srv.removeKeys [] = srv := by
  simp [Server.removeKeys]

/-! The claims. -/

/-- C1: for every key and every gob-encodable value, Set with no TTL followed
by Get returns the value with no error — the round trip through encode, the
backing store and decode is the identity. -/
theorem set_get_roundtrip (c : RedisCache) (k : String) (v : GoVal) (s : St)
    (henc : v.gobEncodable = true) (hf : s.faults = []) :
    (c.Set k v [] s).1 = Except.ok ()
    ∧ (c.Get k (c.Set k v [] s).2.1).1 = Except.ok (some v) := by
  obtain ⟨srv, faults⟩ := s
  simp only at hf
  subst hf
  constructor
  · simp [RedisCache.Set, encode, henc, doCmd, Server.exec]
  · simp [RedisCache.Set, RedisCache.Get, encode, henc, doCmd, Server.exec,
      Server.liveData, lookup_setKey_self, decode, List.lookup]

/-- C1 witness: the round trip at a concrete key, value and store. -/
theorem set_get_roundtrip_witness :
    ((RedisCache.mk "app").Set "session" (GoVal.vstr "token-abc") [] ⟨⟨0, []⟩, []⟩).1 =
        Except.ok ()
    ∧ ((RedisCache.mk "app").Get "session"
        ((RedisCache.mk "app").Set "session" (GoVal.vstr "token-abc") [] ⟨⟨0, []⟩, []⟩).2.1).1 =
        Except.ok (some (GoVal.vstr "token-abc")) :=
  set_get_roundtrip (RedisCache.mk "app") "session" (GoVal.vstr "token-abc") ⟨⟨0, []⟩, []⟩
    rfl rfl

/-- C2: Get returns `(nil, nil)` exactly on a missing (or expired) wire key;
stored bytes that fail to decode, and decoded entries lacking the "value"
field, each surface as a non-nil error, never as a silent miss. -/
theorem get_miss_vs_corrupt (c : RedisCache) (k : String) (s : St) (hf : s.faults = []) :
    (s.srv.liveData (c.wireKey k) = none → (c.Get k s).1 = Except.ok none)
    ∧ (∀ sl t, s.srv.keys.lookup (c.wireKey k) = some sl → sl.expiresAt = some t →
        t ≤ s.srv.now → (c.Get k s).1 = Except.ok none)
    ∧ (∀ n, s.srv.liveData (c.wireKey k) = some (GobData.garbage n) →
        ∃ e, (c.Get k s).1 = Except.error e)
    ∧ (∀ ent, s.srv.liveData (c.wireKey k) = some (GobData.ofEntry ent) →
        ent.lookup "value" = none → ∃ e, (c.Get k s).1 = Except.error e) := by
  obtain ⟨srv, faults⟩ := s
  simp only at hf
  subst hf
  refine ⟨?_, ?_, ?_, ?_⟩
  · intro h
    simp [RedisCache.Get, doCmd, Server.exec, h]
  · intro sl t hsl hexp hle
    simp only at hsl hle
    have h : srv.liveData (c.wireKey k) = none := by
      simp [Server.liveData, hsl, hexp]
      omega
    simp [RedisCache.Get, doCmd, Server.exec, h]
  · intro n h
    simp [RedisCache.Get, doCmd, Server.exec, h, decode]
  · intro ent h hlk
    simp [RedisCache.Get, doCmd, Server.exec, h, decode, hlk]

/-- C2 witness: a store holding a missing key, an expired key, an
undecodable payload and an entry without the "value" field. -/
theorem get_miss_vs_corrupt_witness :
    ((⟨0, [("app:bad", ⟨GobData.garbage 7, none⟩)]⟩ : Server).liveData
        ((RedisCache.mk "app").wireKey "bad") = none →
      ((RedisCache.mk "app").Get "bad"
        ⟨⟨0, [("app:bad", ⟨GobData.garbage 7, none⟩)]⟩, []⟩).1 = Except.ok none)
    ∧ (∀ sl t, (⟨0, [("app:bad", ⟨GobData.garbage 7, none⟩)]⟩ : Server).keys.lookup
          ((RedisCache.mk "app").wireKey "bad") = some sl → sl.expiresAt = some t →
        t ≤ (⟨0, [("app:bad", ⟨GobData.garbage 7, none⟩)]⟩ : Server).now →
        ((RedisCache.mk "app").Get "bad"
          ⟨⟨0, [("app:bad", ⟨GobData.garbage 7, none⟩)]⟩, []⟩).1 = Except.ok none)
    ∧ (∀ n, (⟨0, [("app:bad", ⟨GobData.garbage 7, none⟩)]⟩ : Server).liveData
          ((RedisCache.mk "app").wireKey "bad") = some (GobData.garbage n) →
        ∃ e, ((RedisCache.mk "app").Get "bad"
          ⟨⟨0, [("app:bad", ⟨GobData.garbage 7, none⟩)]⟩, []⟩).1 = Except.error e)
    ∧ (∀ ent, (⟨0, [("app:bad", ⟨GobData.garbage 7, none⟩)]⟩ : Server).liveData
          ((RedisCache.mk "app").wireKey "bad") = some (GobData.ofEntry ent) →
        ent.lookup "value" = none →
        ∃ e, ((RedisCache.mk "app").Get "bad"
          ⟨⟨0, [("app:bad", ⟨GobData.garbage 7, none⟩)]⟩, []⟩).1 = Except.error e) :=
  get_miss_vs_corrupt (RedisCache.mk "app") "bad"
    ⟨⟨0, [("app:bad", ⟨GobData.garbage 7, none⟩)]⟩, []⟩ rfl

/-- C8: Forget is idempotent — two calls in a row both return no error on
any starting store (including one where the key never existed), and the key
does not exist afterwards. -/
theorem forget_idempotent (c : RedisCache) (k : String) (s : St) (hf : s.faults = []) :
    (c.Forget k s).1 = Except.ok ()
    ∧ (c.Forget k (c.Forget k s).2.1).1 = Except.ok ()
    ∧ (c.Has k (c.Forget k (c.Forget k s).2.1).2.1).1 = Except.ok false := by
  obtain ⟨srv, faults⟩ := s
  simp only at hf
  subst hf
  refine ⟨?_, ?_, ?_⟩
  · simp [RedisCache.Forget, doCmd, Server.exec]
  · simp [RedisCache.Forget, doCmd, Server.exec]
  · have hnone : (((srv.removeKeys [c.wireKey k]).removeKeys [c.wireKey k]).keys).lookup
        (c.wireKey k) = none :=
      lookup_removeKeys_mem _ [c.wireKey k] _ (by simp)
    simp [RedisCache.Forget, RedisCache.Has, doCmd, Server.exec, Server.liveData, hnone]

/-- C8 witness: Forget twice on a key that never existed, then Has. -/
theorem forget_idempotent_witness :
    ((RedisCache.mk "app").Forget "ghost" ⟨⟨0, []⟩, []⟩).1 = Except.ok ()
    ∧ ((RedisCache.mk "app").Forget "ghost"
        ((RedisCache.mk "app").Forget "ghost" ⟨⟨0, []⟩, []⟩).2.1).1 = Except.ok ()
    ∧ ((RedisCache.mk "app").Has "ghost"
        ((RedisCache.mk "app").Forget "ghost"
          ((RedisCache.mk "app").Forget "ghost" ⟨⟨0, []⟩, []⟩).2.1).2.1).1 =
        Except.ok false :=
  forget_idempotent (RedisCache.mk "app") "ghost" ⟨⟨0, []⟩, []⟩ rfl

/-- C9: a provided TTL that is zero or negative is still sent as SETEX with
that very value — there is no positivity check and no fallback to a plain
SET, so a non-positive TTL is not treated as "no expiry". -/
theorem set_nonpositive_ttl_setex (c : RedisCache) (k : String) (v : GoVal) (t : Int)
    (ts : List Int) (s : St) (henc : v.gobEncodable = true) (ht : t ≤ 0) :
    cmdsOf (c.Set k v (t :: ts) s).2.2 =
      [Cmd.SETEX (c.wireKey k) t (GobData.ofEntry [("value", v)])] := by
  simp [RedisCache.Set, encode, henc, cmdsOf]

/-- C9 witness: Set with TTL 0 issues SETEX 0. -/
theorem set_nonpositive_ttl_setex_witness :
    cmdsOf ((RedisCache.mk "app").Set "k" (GoVal.vstr "v") [0] ⟨⟨0, []⟩, []⟩).2.2 =
      [Cmd.SETEX ((RedisCache.mk "app").wireKey "k") 0
        (GobData.ofEntry [("value", GoVal.vstr "v")])] :=
  set_nonpositive_ttl_setex (RedisCache.mk "app") "k" (GoVal.vstr "v") 0 [] ⟨⟨0, []⟩, []⟩
    rfl (by omega)

/-- C6: a Set with a positive TTL performs the write as the single command
SETEX carrying both value and TTL (the stored slot gets its expiry in the
same step, never via a separate expire command); a Set without TTL is a
plain SET and the stored slot has no expiry. -/
theorem set_ttl_commands (c : RedisCache) (k : String) (v : GoVal) (t : Int)
    (ts : List Int) (s : St) (henc : v.gobEncodable = true) (hf : s.faults = [])
    (ht : 0 < t) :
    cmdsOf (c.Set k v (t :: ts) s).2.2 =
      [Cmd.SETEX (c.wireKey k) t (GobData.ofEntry [("value", v)])]
    ∧ (c.Set k v (t :: ts) s).2.1.srv.keys.lookup (c.wireKey k) =
        some { data := GobData.ofEntry [("value", v)], expiresAt := some (s.srv.now + t) }
    ∧ cmdsOf (c.Set k v [] s).2.2 = [Cmd.SET (c.wireKey k) (GobData.ofEntry [("value", v)])]
    ∧ (c.Set k v [] s).2.1.srv.keys.lookup (c.wireKey k) =
        some { data := GobData.ofEntry [("value", v)], expiresAt := none } := by
  obtain ⟨srv, faults⟩ := s
  simp only at hf
  subst hf
  refine ⟨?_, ?_, ?_, ?_⟩
  · simp [RedisCache.Set, encode, henc, cmdsOf]
  · have hgt : ¬ t ≤ 0 := by omega
    simp [RedisCache.Set, encode, henc, doCmd, Server.exec, hgt, lookup_setKey_self]
  · simp [RedisCache.Set, encode, henc, cmdsOf]
  · simp [RedisCache.Set, encode, henc, doCmd, Server.exec, lookup_setKey_self]

/-- C6 witness: Set with TTL 5 and Set without TTL at a concrete store. -/
theorem set_ttl_commands_witness :
    cmdsOf ((RedisCache.mk "app").Set "k" (GoVal.vstr "v") [5] ⟨⟨0, []⟩, []⟩).2.2 =
      [Cmd.SETEX ((RedisCache.mk "app").wireKey "k") 5
        (GobData.ofEntry [("value", GoVal.vstr "v")])]
    ∧ ((RedisCache.mk "app").Set "k" (GoVal.vstr "v") [5] ⟨⟨0, []⟩, []⟩).2.1.srv.keys.lookup
        ((RedisCache.mk "app").wireKey "k") =
        some { data := GobData.ofEntry [("value", GoVal.vstr "v")],
               expiresAt := some ((0 : Int) + 5) }
    ∧ cmdsOf ((RedisCache.mk "app").Set "k" (GoVal.vstr "v") [] ⟨⟨0, []⟩, []⟩).2.2 =
      [Cmd.SET ((RedisCache.mk "app").wireKey "k")
        (GobData.ofEntry [("value", GoVal.vstr "v")])]
    ∧ ((RedisCache.mk "app").Set "k" (GoVal.vstr "v") [] ⟨⟨0, []⟩, []⟩).2.1.srv.keys.lookup
        ((RedisCache.mk "app").wireKey "k") =
        some { data := GobData.ofEntry [("value", GoVal.vstr "v")], expiresAt := none } :=
  set_ttl_commands (RedisCache.mk "app") "k" (GoVal.vstr "v") 5 [] ⟨⟨0, []⟩, []⟩
    rfl rfl (by omega)

/-- C3 (amended): Has, Get, Set and Forget each borrow exactly one pooled
connection and release it on every exit path; EmptyByMatch and Empty borrow
two — one directly and a second inside the nested getKeys — and release
both on every exit path, never releasing a connection they did not hold. -/
theorem pool_borrow_release (c : RedisCache) (k1 k2 k3 k4 pat : String) (v : GoVal)
    (ts : List Int) (s1 s2 s3 s4 s5 s6 : St) :
    borrows 1 (c.Has k1 s1).2.2
    ∧ borrows 1 (c.Get k2 s2).2.2
    ∧ borrows 1 (c.Set k3 v ts s3).2.2
    ∧ borrows 1 (c.Forget k4 s4).2.2
    ∧ borrows 2 (c.EmptyByMatch pat s5).2.2
    ∧ borrows 2 (c.Empty s6).2.2 := by
  refine ⟨?_, ?_, ?_, ?_, ?_, ?_⟩
  · rw [Has_events]
    exact borrows_one_shape [Event.cmd _] (by intro e he; simp at he; exact ⟨_, he⟩)
  · rw [Get_events]
    exact borrows_one_shape [Event.cmd _] (by intro e he; simp at he; exact ⟨_, he⟩)
  · obtain ⟨mid, hm, hevs⟩ := Set_events c k3 v ts s3
    rw [hevs]
    exact borrows_one_shape mid hm
  · rw [Forget_events]
    exact borrows_one_shape [Event.cmd _] (by intro e he; simp at he; exact ⟨_, he⟩)
  · obtain ⟨extra, hex, hevs⟩ := EmptyByMatch_events c pat s5
    rw [hevs]
    refine borrows_two_shape _ extra ?_ hex
    intro e he
    obtain ⟨cur, h⟩ := scanLoop_events _ _ _ _ _ e he
    exact ⟨_, h⟩
  · obtain ⟨extra, hex, hevs⟩ := Empty_events c s6
    rw [hevs]
    refine borrows_two_shape _ extra ?_ hex
    intro e he
    obtain ⟨cur, h⟩ := scanLoop_events _ _ _ _ _ e he
    exact ⟨_, h⟩

/-- C3 counterexample: on a concrete cache and store, EmptyByMatch borrows
two pooled connections during its run, not exactly one as claimed — the
operation's trace holds two acquire events. -/
theorem pool_single_borrow_cex :
    acqCount ((RedisCache.mk "app").EmptyByMatch "x" ⟨⟨0, []⟩, []⟩).2.2 = 2
    ∧ acqCount ((RedisCache.mk "app").EmptyByMatch "x" ⟨⟨0, []⟩, []⟩).2.2 ≠ 1 := by
  constructor
  · decide
  · decide

theorem delCmdsOf_cons_acquire (l : List Event) :
    delCmdsOf (Event.acquire :: l) = delCmdsOf l := rfl

theorem scanCursorsOf_cons_acquire (l : List Event) :
    scanCursorsOf (Event.acquire :: l) = scanCursorsOf l := rfl

theorem getKeys_no_del (c : RedisCache) (p : String) (s : St) :
    delCmdsOf (c.getKeys p s).2.2 = [] := by
  have h : delCmdsOf (scanLoop (wirePat p) (s.srv.keys.length + 1) 0 [] s).2.2 = [] :=
    delCmdsOf_scanEvs (wirePat p) _ (scanLoop_events _ _ _ _ _)
  show delCmdsOf (Event.acquire ::
    ((scanLoop (wirePat p) (s.srv.keys.length + 1) 0 [] s).2.2 ++ [Event.release])) = []
  rw [delCmdsOf_cons_acquire, delCmdsOf_append, h]
  rfl

theorem lookup_none_of_not_mem_fst (l : List (String × Slot)) (w : String)
    (h : w ∉ l.map Prod.fst) : l.lookup w = none := by
  induction l with
  | nil => rfl
  | cons kv rest ih =>
    have h1 : w ≠ kv.1 := by
      intro e
      exact h (by simp [e])
    have h2 : w ∉ rest.map Prod.fst := fun hm => h (by simp [hm])
    have hb : (w == kv.1) = false := by simp [beq_eq_false_iff_ne, h1]
    obtain ⟨k1, sl1⟩ := kv
    simp only [List.lookup]
    simp only at hb
    simp [hb, ih h2]

theorem wirePat_data (b : String) : ∃ r, (wirePat b).data = b.data ++ r := by
  by_cases h : strHasSuffix b ":" = true
  · exact ⟨("*" : String).data, by simp [wirePat, h, String.data_append]⟩
  · exact ⟨(":*" : String).data, by simp [wirePat, h, String.data_append]⟩

theorem strHasSuffix_colon (P : String) : strHasSuffix (P ++ ":") ":" = true := by
  simp [strHasSuffix, String.data_append, List.isSuffixOf, List.reverse_append]

theorem globMatch_prefix_of_pat (lit : List Char) (hlit : ∀ ch ∈ lit, ch ≠ '*')
    (b x : String) (hb : lit <+: b.data) (hm : globMatch (wirePat b) x = true) :
    lit <+: x.data := by
  obtain ⟨t, ht⟩ := hb
  obtain ⟨r, hr⟩ := wirePat_data b
  unfold globMatch at hm
  rw [hr, ← ht, List.append_assoc] at hm
  exact globMatchL_lit_head lit (t ++ r) hlit x.data hm

theorem colon_lit_star_free (c : RedisCache) (hstar : '*' ∉ c.Prefix.data) :
    ∀ ch ∈ (c.Prefix ++ ":").data, ch ≠ '*' := by
  intro ch hch
  rw [String.data_append] at hch
  rcases List.mem_append.mp hch with h | h
  · intro e
    exact hstar (e ▸ h)
  · have : ch = ':' := by
      have he : (":" : String).data = [':'] := rfl
      rw [he] at h
      simpa using h
    simp [this]

theorem globMatch_star_suffix (c : RedisCache) (hstar : '*' ∉ c.Prefix.data)
    (w : String) (hw : (c.Prefix ++ ":").data <+: w.data) :
    globMatch (wirePat (c.Prefix ++ ":")) w = true := by
  obtain ⟨rest, hrest⟩ := hw
  unfold globMatch
  rw [wirePat, if_pos (strHasSuffix_colon c.Prefix)]
  have hd : ((c.Prefix ++ ":") ++ "*").data = (c.Prefix ++ ":").data ++ ['*'] := by
    rw [String.data_append]
  rw [hd, ← hrest, globMatchL_append_lit _ _ _ (colon_lit_star_free c hstar)]
  exact globMatchL_star_any rest

theorem EmptyByMatch_ok (c : RedisCache) (pat : String) (srv : Server) :
    (c.EmptyByMatch pat ⟨srv, []⟩).1 = Except.ok ()
    ∧ (c.EmptyByMatch pat ⟨srv, []⟩).2.1.srv =
        srv.removeKeys (matchingKeys srv (wirePat (c.Prefix ++ ":" ++ pat)))
    ∧ (matchingKeys srv (wirePat (c.Prefix ++ ":" ++ pat)) = [] →
        delCmdsOf (c.EmptyByMatch pat ⟨srv, []⟩).2.2 = [])
    ∧ (matchingKeys srv (wirePat (c.Prefix ++ ":" ++ pat)) ≠ [] →
        delCmdsOf (c.EmptyByMatch pat ⟨srv, []⟩).2.2 =
          [matchingKeys srv (wirePat (c.Prefix ++ ":" ++ pat))])
    ∧ cursorChain srv 0 (scanCursorsOf (c.EmptyByMatch pat ⟨srv, []⟩).2.2) := by
  obtain ⟨hK, hS, hC⟩ := getKeys_ok c (c.Prefix ++ ":" ++ pat) srv
  have hE : (c.getKeys (c.Prefix ++ ":" ++ pat) ⟨srv, []⟩).1.2 = none := by rw [hK]
  have hKeys : (c.getKeys (c.Prefix ++ ":" ++ pat) ⟨srv, []⟩).1.1 =
      matchingKeys srv (wirePat (c.Prefix ++ ":" ++ pat)) := by rw [hK]
  have hNoDel := getKeys_no_del c (c.Prefix ++ ":" ++ pat) (⟨srv, []⟩ : St)
  have hCur : cursorChain srv 0
      (scanCursorsOf (c.getKeys (c.Prefix ++ ":" ++ pat) ⟨srv, []⟩).2.2) := hC
  by_cases hmk : matchingKeys srv (wirePat (c.Prefix ++ ":" ++ pat)) = []
  · refine ⟨?_, ?_, ?_, fun h => absurd hmk h, ?_⟩
    · simp [RedisCache.EmptyByMatch, hE, hKeys, hmk]
    · simp [RedisCache.EmptyByMatch, hE, hKeys, hmk, hS, removeKeys_nil]
    · intro _
      simp only [RedisCache.EmptyByMatch, hE, hKeys, hmk, List.length_nil, if_pos]
      rw [delCmdsOf_cons_acquire, delCmdsOf_append, hNoDel]
      rfl
    · simp only [RedisCache.EmptyByMatch, hE, hKeys, hmk, List.length_nil, if_pos]
      rw [scanCursorsOf_cons_acquire, scanCursorsOf_append]
      have : scanCursorsOf [Event.release] = [] := rfl
      rw [this, List.append_nil]
      exact hCur
  · have hlen : ¬ ((matchingKeys srv (wirePat (c.Prefix ++ ":" ++ pat))).length = 0) := by
      simpa [List.length_eq_zero] using hmk
    refine ⟨?_, ?_, fun h => absurd h hmk, ?_, ?_⟩
    · simp [RedisCache.EmptyByMatch, hE, hKeys, hlen, hS, doCmd, Server.exec]
    · simp [RedisCache.EmptyByMatch, hE, hKeys, hlen, hS, doCmd, Server.exec]
    · intro _
      simp only [RedisCache.EmptyByMatch, hE, hKeys, if_neg hlen]
      rw [delCmdsOf_cons_acquire, delCmdsOf_append, hNoDel]
      rfl
    · simp only [RedisCache.EmptyByMatch, hE, hKeys, if_neg hlen]
      rw [scanCursorsOf_cons_acquire, scanCursorsOf_append]
      have : scanCursorsOf [Event.cmd (Cmd.DEL (matchingKeys srv
          (wirePat (c.Prefix ++ ":" ++ pat)))), Event.release] = [] := rfl
      rw [this, List.append_nil]
      exact hCur

theorem Empty_ok (c : RedisCache) (srv : Server) :
    (c.Empty ⟨srv, []⟩).1 = Except.ok ()
    ∧ (c.Empty ⟨srv, []⟩).2.1.srv =
        srv.removeKeys (matchingKeys srv (wirePat (c.Prefix ++ ":")))
    ∧ (matchingKeys srv (wirePat (c.Prefix ++ ":")) = [] →
        delCmdsOf (c.Empty ⟨srv, []⟩).2.2 = [])
    ∧ (matchingKeys srv (wirePat (c.Prefix ++ ":")) ≠ [] →
        delCmdsOf (c.Empty ⟨srv, []⟩).2.2 =
          [matchingKeys srv (wirePat (c.Prefix ++ ":"))])
    ∧ cursorChain srv 0 (scanCursorsOf (c.Empty ⟨srv, []⟩).2.2) := by
  obtain ⟨hK, hS, hC⟩ := getKeys_ok c (c.Prefix ++ ":") srv
  have hE : (c.getKeys (c.Prefix ++ ":") ⟨srv, []⟩).1.2 = none := by rw [hK]
  have hKeys : (c.getKeys (c.Prefix ++ ":") ⟨srv, []⟩).1.1 =
      matchingKeys srv (wirePat (c.Prefix ++ ":")) := by rw [hK]
  have hNoDel := getKeys_no_del c (c.Prefix ++ ":") (⟨srv, []⟩ : St)
  have hCur : cursorChain srv 0
      (scanCursorsOf (c.getKeys (c.Prefix ++ ":") ⟨srv, []⟩).2.2) := hC
  by_cases hmk : matchingKeys srv (wirePat (c.Prefix ++ ":")) = []
  · refine ⟨?_, ?_, ?_, fun h => absurd hmk h, ?_⟩
    · simp [RedisCache.Empty, hE, hKeys, hmk]
    · simp [RedisCache.Empty, hE, hKeys, hmk, hS, removeKeys_nil]
    · intro _
      simp only [RedisCache.Empty, hE, hKeys, hmk, List.length_nil, if_pos]
      rw [delCmdsOf_cons_acquire, delCmdsOf_append, hNoDel]
      rfl
    · simp only [RedisCache.Empty, hE, hKeys, hmk, List.length_nil, if_pos]
      rw [scanCursorsOf_cons_acquire, scanCursorsOf_append]
      have : scanCursorsOf [Event.release] = [] := rfl
      rw [this, List.append_nil]
      exact hCur
  · have hlen : ¬ ((matchingKeys srv (wirePat (c.Prefix ++ ":"))).length = 0) := by
      simpa [List.length_eq_zero] using hmk
    refine ⟨?_, ?_, fun h => absurd h hmk, ?_, ?_⟩
    · simp [RedisCache.Empty, hE, hKeys, hlen, hS, doCmd, Server.exec]
    · simp [RedisCache.Empty, hE, hKeys, hlen, hS, doCmd, Server.exec]
    · intro _
      simp only [RedisCache.Empty, hE, hKeys, if_neg hlen]
      rw [delCmdsOf_cons_acquire, delCmdsOf_append, hNoDel]
      rfl
    · simp only [RedisCache.Empty, hE, hKeys, if_neg hlen]
      rw [scanCursorsOf_cons_acquire, scanCursorsOf_append]
      have : scanCursorsOf [Event.cmd (Cmd.DEL (matchingKeys srv
          (wirePat (c.Prefix ++ ":")))), Event.release] = [] := rfl
      rw [this, List.append_nil]
      exact hCur

theorem EmptyByMatch_del_either (c : RedisCache) (pat : String) (s : St) :
    delCmdsOf (c.EmptyByMatch pat s).2.2 = []
    ∨ delCmdsOf (c.EmptyByMatch pat s).2.2 =
        [(c.getKeys (c.Prefix ++ ":" ++ pat) s).1.1] := by
  have hNoDel := getKeys_no_del c (c.Prefix ++ ":" ++ pat) s
  simp only [RedisCache.EmptyByMatch]
  split
  · left
    rw [delCmdsOf_cons_acquire, delCmdsOf_append, hNoDel]
    rfl
  · split
    · left
      rw [delCmdsOf_cons_acquire, delCmdsOf_append, hNoDel]
      rfl
    · right
      rw [delCmdsOf_cons_acquire, delCmdsOf_append, hNoDel]
      rfl

theorem Empty_del_either (c : RedisCache) (s : St) :
    delCmdsOf (c.Empty s).2.2 = []
    ∨ delCmdsOf (c.Empty s).2.2 = [(c.getKeys (c.Prefix ++ ":") s).1.1] := by
  have hNoDel := getKeys_no_del c (c.Prefix ++ ":") s
  simp only [RedisCache.Empty]
  split
  · left
    rw [delCmdsOf_cons_acquire, delCmdsOf_append, hNoDel]
    rfl
  · split
    · left
      rw [delCmdsOf_cons_acquire, delCmdsOf_append, hNoDel]
      rfl
    · right
      rw [delCmdsOf_cons_acquire, delCmdsOf_append, hNoDel]
      rfl

theorem EmptyByMatch_srv_either (c : RedisCache) (pat : String) (s : St) :
    (c.EmptyByMatch pat s).2.1.srv = s.srv
    ∨ (c.EmptyByMatch pat s).2.1.srv =
        s.srv.removeKeys (c.getKeys (c.Prefix ++ ":" ++ pat) s).1.1 := by
  have hsrv := getKeys_srv c (c.Prefix ++ ":" ++ pat) s
  simp only [RedisCache.EmptyByMatch]
  split
  · left
    exact hsrv
  · split
    · left
      exact hsrv
    · by_cases hb : (c.getKeys (c.Prefix ++ ":" ++ pat) s).2.1.faults.headD false = true
      · left
        simp only [doCmd, if_pos hb]
        exact hsrv
      · right
        simp only [doCmd, if_neg hb, Server.exec]
        rw [hsrv]

theorem Empty_srv_either (c : RedisCache) (s : St) :
    (c.Empty s).2.1.srv = s.srv
    ∨ (c.Empty s).2.1.srv = s.srv.removeKeys (c.getKeys (c.Prefix ++ ":") s).1.1 := by
  have hsrv := getKeys_srv c (c.Prefix ++ ":") s
  simp only [RedisCache.Empty]
  split
  · left
    exact hsrv
  · split
    · left
      exact hsrv
    · by_cases hb : (c.getKeys (c.Prefix ++ ":") s).2.1.faults.headD false = true
      · left
        simp only [doCmd, if_pos hb]
        exact hsrv
      · right
        simp only [doCmd, if_neg hb, Server.exec]
        rw [hsrv]

/-- C10: when the key scan fails mid-enumeration, EmptyByMatch and Empty
return a non-nil error, issue no DEL command at all, and leave the store's
key set unchanged. -/
theorem scan_error_no_delete (c : RedisCache) (pat : String) (s : St)
    (h1 : ((c.getKeys (c.Prefix ++ ":" ++ pat) s).1.2).isSome = true)
    (h2 : ((c.getKeys (c.Prefix ++ ":") s).1.2).isSome = true) :
    (isErr (c.EmptyByMatch pat s).1 = true
      ∧ delCmdsOf (c.EmptyByMatch pat s).2.2 = []
      ∧ (c.EmptyByMatch pat s).2.1.srv = s.srv)
    ∧ (isErr (c.Empty s).1 = true
      ∧ delCmdsOf (c.Empty s).2.2 = []
      ∧ (c.Empty s).2.1.srv = s.srv) := by
  obtain ⟨e1, he1⟩ := Option.isSome_iff_exists.mp h1
  obtain ⟨e2, he2⟩ := Option.isSome_iff_exists.mp h2
  have hNoDel1 := getKeys_no_del c (c.Prefix ++ ":" ++ pat) s
  have hNoDel2 := getKeys_no_del c (c.Prefix ++ ":") s
  refine ⟨⟨?_, ?_, ?_⟩, ⟨?_, ?_, ?_⟩⟩
  · simp [RedisCache.EmptyByMatch, he1, isErr]
  · simp only [RedisCache.EmptyByMatch, he1]
    rw [delCmdsOf_cons_acquire, delCmdsOf_append, hNoDel1]
    rfl
  · simp only [RedisCache.EmptyByMatch, he1]
    exact getKeys_srv c (c.Prefix ++ ":" ++ pat) s
  · simp [RedisCache.Empty, he2, isErr]
  · simp only [RedisCache.Empty, he2]
    rw [delCmdsOf_cons_acquire, delCmdsOf_append, hNoDel2]
    rfl
  · simp only [RedisCache.Empty, he2]
    exact getKeys_srv c (c.Prefix ++ ":") s

/-- C10 witness: a transport fault on the first scan step. -/
theorem scan_error_no_delete_witness :
    (isErr ((RedisCache.mk "app").EmptyByMatch "x" ⟨⟨0, []⟩, [true]⟩).1 = true
      ∧ delCmdsOf ((RedisCache.mk "app").EmptyByMatch "x" ⟨⟨0, []⟩, [true]⟩).2.2 = []
      ∧ ((RedisCache.mk "app").EmptyByMatch "x" ⟨⟨0, []⟩, [true]⟩).2.1.srv =
        (⟨⟨0, []⟩, [true]⟩ : St).srv)
    ∧ (isErr ((RedisCache.mk "app").Empty ⟨⟨0, []⟩, [true]⟩).1 = true
      ∧ delCmdsOf ((RedisCache.mk "app").Empty ⟨⟨0, []⟩, [true]⟩).2.2 = []
      ∧ ((RedisCache.mk "app").Empty ⟨⟨0, []⟩, [true]⟩).2.1.srv =
        (⟨⟨0, []⟩, [true]⟩ : St).srv) :=
  scan_error_no_delete (RedisCache.mk "app") "x" ⟨⟨0, []⟩, [true]⟩ rfl rfl

/-- C4: EmptyByMatch and Empty follow the cursor-scan algorithm — the scan
cursors issued form the chain that starts at 0, moves to each step's
replied cursor, and stops exactly at the first replied 0 — and afterwards
the accumulated keys are deleted by one single batched DEL; when zero keys
were discovered no DEL is issued and the operation returns nil. -/
theorem scan_then_single_delete (c : RedisCache) (pat : String) (s : St)
    (hf : s.faults = []) :
    (cursorChain s.srv 0 (scanCursorsOf (c.EmptyByMatch pat s).2.2)
      ∧ (matchingKeys s.srv (wirePat (c.Prefix ++ ":" ++ pat)) = [] →
          (c.EmptyByMatch pat s).1 = Except.ok ()
          ∧ delCmdsOf (c.EmptyByMatch pat s).2.2 = [])
      ∧ (matchingKeys s.srv (wirePat (c.Prefix ++ ":" ++ pat)) ≠ [] →
          delCmdsOf (c.EmptyByMatch pat s).2.2 =
            [matchingKeys s.srv (wirePat (c.Prefix ++ ":" ++ pat))]))
    ∧ (cursorChain s.srv 0 (scanCursorsOf (c.Empty s).2.2)
      ∧ (matchingKeys s.srv (wirePat (c.Prefix ++ ":")) = [] →
          (c.Empty s).1 = Except.ok () ∧ delCmdsOf (c.Empty s).2.2 = [])
      ∧ (matchingKeys s.srv (wirePat (c.Prefix ++ ":")) ≠ [] →
          delCmdsOf (c.Empty s).2.2 =
            [matchingKeys s.srv (wirePat (c.Prefix ++ ":"))])) := by
  obtain ⟨srv, faults⟩ := s
  simp only at hf
  subst hf
  obtain ⟨e1, e2, e3, e4, e5⟩ := EmptyByMatch_ok c pat srv
  obtain ⟨f1, f2, f3, f4, f5⟩ := Empty_ok c srv
  exact ⟨⟨e5, fun h => ⟨e1, e3 h⟩, e4⟩, ⟨f5, fun h => ⟨f1, f3 h⟩, f4⟩⟩

/-- C4 witness: the scan-then-delete shape at a concrete cache with one
stored key under the prefix. -/
theorem scan_then_single_delete_witness :
    (cursorChain (⟨⟨0, [("app:u:1",
          ⟨GobData.ofEntry [("value", GoVal.vstr "x")], none⟩)]⟩, []⟩ : St).srv 0
        (scanCursorsOf ((RedisCache.mk "app").EmptyByMatch "u"
          ⟨⟨0, [("app:u:1", ⟨GobData.ofEntry [("value", GoVal.vstr "x")], none⟩)]⟩, []⟩).2.2)
      ∧ (matchingKeys (⟨⟨0, [("app:u:1",
            ⟨GobData.ofEntry [("value", GoVal.vstr "x")], none⟩)]⟩, []⟩ : St).srv
            (wirePat ((RedisCache.mk "app").Prefix ++ ":" ++ "u")) = [] →
          ((RedisCache.mk "app").EmptyByMatch "u"
            ⟨⟨0, [("app:u:1", ⟨GobData.ofEntry [("value", GoVal.vstr "x")], none⟩)]⟩, []⟩).1 =
            Except.ok ()
          ∧ delCmdsOf ((RedisCache.mk "app").EmptyByMatch "u"
            ⟨⟨0, [("app:u:1",
              ⟨GobData.ofEntry [("value", GoVal.vstr "x")], none⟩)]⟩, []⟩).2.2 = [])
      ∧ (matchingKeys (⟨⟨0, [("app:u:1",
            ⟨GobData.ofEntry [("value", GoVal.vstr "x")], none⟩)]⟩, []⟩ : St).srv
            (wirePat ((RedisCache.mk "app").Prefix ++ ":" ++ "u")) ≠ [] →
          delCmdsOf ((RedisCache.mk "app").EmptyByMatch "u"
            ⟨⟨0, [("app:u:1",
              ⟨GobData.ofEntry [("value", GoVal.vstr "x")], none⟩)]⟩, []⟩).2.2 =
            [matchingKeys (⟨⟨0, [("app:u:1",
              ⟨GobData.ofEntry [("value", GoVal.vstr "x")], none⟩)]⟩, []⟩ : St).srv
              (wirePat ((RedisCache.mk "app").Prefix ++ ":" ++ "u"))]))
    ∧ (cursorChain (⟨⟨0, [("app:u:1",
          ⟨GobData.ofEntry [("value", GoVal.vstr "x")], none⟩)]⟩, []⟩ : St).srv 0
        (scanCursorsOf ((RedisCache.mk "app").Empty
          ⟨⟨0, [("app:u:1", ⟨GobData.ofEntry [("value", GoVal.vstr "x")], none⟩)]⟩, []⟩).2.2)
      ∧ (matchingKeys (⟨⟨0, [("app:u:1",
            ⟨GobData.ofEntry [("value", GoVal.vstr "x")], none⟩)]⟩, []⟩ : St).srv
            (wirePat ((RedisCache.mk "app").Prefix ++ ":")) = [] →
          ((RedisCache.mk "app").Empty
            ⟨⟨0, [("app:u:1", ⟨GobData.ofEntry [("value", GoVal.vstr "x")], none⟩)]⟩, []⟩).1 =
            Except.ok ()
          ∧ delCmdsOf ((RedisCache.mk "app").Empty
            ⟨⟨0, [("app:u:1",
              ⟨GobData.ofEntry [("value", GoVal.vstr "x")], none⟩)]⟩, []⟩).2.2 = [])
      ∧ (matchingKeys (⟨⟨0, [("app:u:1",
            ⟨GobData.ofEntry [("value", GoVal.vstr "x")], none⟩)]⟩, []⟩ : St).srv
            (wirePat ((RedisCache.mk "app").Prefix ++ ":")) ≠ [] →
          delCmdsOf ((RedisCache.mk "app").Empty
            ⟨⟨0, [("app:u:1",
              ⟨GobData.ofEntry [("value", GoVal.vstr "x")], none⟩)]⟩, []⟩).2.2 =
            [matchingKeys (⟨⟨0, [("app:u:1",
              ⟨GobData.ofEntry [("value", GoVal.vstr "x")], none⟩)]⟩, []⟩ : St).srv
              (wirePat ((RedisCache.mk "app").Prefix ++ ":"))])) :=
  scan_then_single_delete (RedisCache.mk "app") "u"
    ⟨⟨0, [("app:u:1", ⟨GobData.ofEntry [("value", GoVal.vstr "x")], none⟩)]⟩, []⟩ rfl

/-- C7 (amended): Empty() deletes every wire key under the namespace
prefix; its effect coincides — result, final state and trace — with
EmptyByMatch applied to the empty pattern, both scanning with the wire
pattern `prefix:*` that matches the whole namespace. It is not equivalent
to EmptyByMatch("*"): that call's wire pattern gains an extra `:*` segment
and misses namespace keys with no further separator (see the
counterexample). -/
theorem empty_equiv_empty_by_match (c : RedisCache) (s : St) (hf : s.faults = [])
    (hstar : '*' ∉ c.Prefix.data) :
    (c.Empty s).1 = Except.ok ()
    ∧ c.EmptyByMatch "" s = c.Empty s
    ∧ (∀ w, (c.Prefix ++ ":").data <+: w.data →
        ((c.Empty s).2.1.srv.keys).lookup w = none) := by
  obtain ⟨srv, faults⟩ := s
  simp only at hf
  subst hf
  obtain ⟨f1, f2, f3, f4, f5⟩ := Empty_ok c srv
  refine ⟨f1, ?_, ?_⟩
  · have hpat : c.Prefix ++ ":" ++ "" = c.Prefix ++ ":" := String.append_empty _
    obtain ⟨hK, hS, hC⟩ := getKeys_ok c (c.Prefix ++ ":") srv
    have hE : (c.getKeys (c.Prefix ++ ":") ⟨srv, []⟩).1.2 = none := by rw [hK]
    have hKeys : (c.getKeys (c.Prefix ++ ":") ⟨srv, []⟩).1.1 =
        matchingKeys srv (wirePat (c.Prefix ++ ":")) := by rw [hK]
    simp only [RedisCache.EmptyByMatch, RedisCache.Empty, hpat, hE, hKeys]
    by_cases hmk : matchingKeys srv (wirePat (c.Prefix ++ ":")) = []
    · simp [hmk]
    · have hlen : ¬ ((matchingKeys srv (wirePat (c.Prefix ++ ":"))).length = 0) := by
        simpa [List.length_eq_zero] using hmk
      simp [hlen, hS, doCmd, Server.exec]
  · intro w hw
    rw [f2]
    by_cases hmem : w ∈ srv.keys.map Prod.fst
    · exact lookup_removeKeys_mem srv _ w
        (List.mem_filter.mpr ⟨hmem, globMatch_star_suffix c hstar w hw⟩)
    · have hnm : w ∉ matchingKeys srv (wirePat (c.Prefix ++ ":")) := by
        intro hmm
        exact hmem (List.mem_filter.mp hmm).1
      rw [lookup_removeKeys_not_mem srv _ w hnm]
      exact lookup_none_of_not_mem_fst srv.keys w hmem

/-- C7 witness: the equivalence at a concrete cache holding one key inside
and one key outside the namespace. -/
theorem empty_equiv_empty_by_match_witness :
    (((RedisCache.mk "app").Empty
        ⟨⟨0, [("app:foo", ⟨GobData.ofEntry [("value", GoVal.vstr "x")], none⟩),
              ("other:bar", ⟨GobData.ofEntry [("value", GoVal.vstr "y")], none⟩)]⟩, []⟩).1 =
      Except.ok ())
    ∧ (RedisCache.mk "app").EmptyByMatch ""
        ⟨⟨0, [("app:foo", ⟨GobData.ofEntry [("value", GoVal.vstr "x")], none⟩),
              ("other:bar", ⟨GobData.ofEntry [("value", GoVal.vstr "y")], none⟩)]⟩, []⟩ =
      (RedisCache.mk "app").Empty
        ⟨⟨0, [("app:foo", ⟨GobData.ofEntry [("value", GoVal.vstr "x")], none⟩),
              ("other:bar", ⟨GobData.ofEntry [("value", GoVal.vstr "y")], none⟩)]⟩, []⟩
    ∧ (∀ w, ((RedisCache.mk "app").Prefix ++ ":").data <+: w.data →
        (((RedisCache.mk "app").Empty
          ⟨⟨0, [("app:foo", ⟨GobData.ofEntry [("value", GoVal.vstr "x")], none⟩),
                ("other:bar", ⟨GobData.ofEntry [("value", GoVal.vstr "y")], none⟩)]⟩,
           []⟩).2.1.srv.keys).lookup w = none) :=
  empty_equiv_empty_by_match (RedisCache.mk "app")
    ⟨⟨0, [("app:foo", ⟨GobData.ofEntry [("value", GoVal.vstr "x")], none⟩),
          ("other:bar", ⟨GobData.ofEntry [("value", GoVal.vstr "y")], none⟩)]⟩, []⟩
    rfl (by decide)

/-- C7 counterexample: with prefix "app" and the single stored key
"app:foo", Empty() deletes the key, but EmptyByMatch("*") — the pattern
matching everything — deletes nothing, because its wire match pattern
becomes "app:*:*"; so the two are not equivalent as claimed. -/
theorem empty_vs_match_star_cex :
    ((RedisCache.mk "app").Empty
        ⟨⟨0, [("app:foo", ⟨GobData.ofEntry [("value", GoVal.vstr "x")], none⟩)]⟩,
         []⟩).2.1.srv.keys = []
    ∧ (((RedisCache.mk "app").EmptyByMatch "*"
        ⟨⟨0, [("app:foo", ⟨GobData.ofEntry [("value", GoVal.vstr "x")], none⟩)]⟩,
         []⟩).2.1.srv.keys).map Prod.fst = ["app:foo"] := by
  constructor
  · decide
  · decide

/-- C5 counterexample: with the prefix "a*b", whose star the wire match
pattern treats as a glob wildcard, Empty() bulk-deletes the stored key
"aXb:k" even though that key does not start with "a*b:" — so the claimed
isolation fails for a prefix containing a wildcard character. -/
theorem namespace_isolation_cex :
    ¬ ((("a*b" : String) ++ ":").data <+: ("aXb:k" : String).data)
    ∧ delCmdsOf ((RedisCache.mk "a*b").Empty
        ⟨⟨0, [("aXb:k", ⟨GobData.ofEntry [("value", GoVal.vstr "v")], none⟩)]⟩,
         []⟩).2.2 = [["aXb:k"]]
    ∧ ((RedisCache.mk "a*b").Empty
        ⟨⟨0, [("aXb:k", ⟨GobData.ofEntry [("value", GoVal.vstr "v")], none⟩)]⟩,
         []⟩).2.1.srv.keys = [] := by
  refine ⟨?_, ?_, ?_⟩
  · decide
  · decide
  · decide

/-- C5 (amended): for a cache instance whose prefix contains no glob
wildcard `*`, every wire key written by Set starts with the prefix followed
by the separator, the bulk deletes of EmptyByMatch and Empty only ever
delete keys carrying that prefix, and a stored wire key without the prefix
is left untouched by either bulk delete. (When the prefix itself contains
`*`, the wire match pattern treats it as a wildcard and the bulk deletes
can remove other namespaces' keys, as the counterexample shows.) -/
theorem namespace_isolation (c : RedisCache) (k pat : String) (s : St)
    (hstar : '*' ∉ c.Prefix.data) :
    ((c.Prefix ++ ":").data <+: (c.wireKey k).data)
    ∧ (∀ ks ∈ delCmdsOf (c.EmptyByMatch pat s).2.2, ∀ x ∈ ks,
        (c.Prefix ++ ":").data <+: x.data)
    ∧ (∀ ks ∈ delCmdsOf (c.Empty s).2.2, ∀ x ∈ ks,
        (c.Prefix ++ ":").data <+: x.data)
    ∧ (∀ w, ¬ ((c.Prefix ++ ":").data <+: w.data) →
        ((c.EmptyByMatch pat s).2.1.srv.keys).lookup w = s.srv.keys.lookup w
        ∧ ((c.Empty s).2.1.srv.keys).lookup w = s.srv.keys.lookup w) := by
  have hlit := colon_lit_star_free c hstar
  have hprefEB : (c.Prefix ++ ":").data <+: (c.Prefix ++ ":" ++ pat).data := by
    rw [String.data_append (c.Prefix ++ ":") pat]
    exact List.prefix_append _ _
  have hprefE : (c.Prefix ++ ":").data <+: (c.Prefix ++ ":").data := List.prefix_refl _
  have hEB : ∀ x ∈ (c.getKeys (c.Prefix ++ ":" ++ pat) s).1.1,
      (c.Prefix ++ ":").data <+: x.data := by
    intro x hx
    exact globMatch_prefix_of_pat _ hlit _ x hprefEB (getKeys_keys_sound c _ s x hx)
  have hE : ∀ x ∈ (c.getKeys (c.Prefix ++ ":") s).1.1,
      (c.Prefix ++ ":").data <+: x.data := by
    intro x hx
    exact globMatch_prefix_of_pat _ hlit _ x hprefE (getKeys_keys_sound c _ s x hx)
  refine ⟨?_, ?_, ?_, ?_⟩
  · show (c.Prefix ++ ":").data <+: ((c.Prefix ++ ":") ++ k).data
    rw [String.data_append]
    exact List.prefix_append _ _
  · intro ks hks x hx
    rcases EmptyByMatch_del_either c pat s with h | h
    · rw [h] at hks
      simp at hks
    · rw [h] at hks
      simp at hks
      subst hks
      exact hEB x hx
  · intro ks hks x hx
    rcases Empty_del_either c s with h | h
    · rw [h] at hks
      simp at hks
    · rw [h] at hks
      simp at hks
      subst hks
      exact hE x hx
  · intro w hw
    constructor
    · rcases EmptyByMatch_srv_either c pat s with h | h
      · rw [h]
      · rw [h]
        apply lookup_removeKeys_not_mem
        intro hm
        exact hw (hEB w hm)
    · rcases Empty_srv_either c s with h | h
      · rw [h]
      · rw [h]
        apply lookup_removeKeys_not_mem
        intro hm
        exact hw (hE w hm)

/-- C5 witness: namespace isolation at a concrete cache and store holding a
key of a different namespace. -/
theorem namespace_isolation_witness :
    (((RedisCache.mk "app").Prefix ++ ":").data <+:
        ((RedisCache.mk "app").wireKey "user").data)
    ∧ (∀ ks ∈ delCmdsOf ((RedisCache.mk "app").EmptyByMatch "u"
        ⟨⟨0, [("other:bar", ⟨GobData.ofEntry [("value", GoVal.vstr "y")], none⟩)]⟩,
         []⟩).2.2, ∀ x ∈ ks, (((RedisCache.mk "app").Prefix ++ ":").data <+: x.data))
    ∧ (∀ ks ∈ delCmdsOf ((RedisCache.mk "app").Empty
        ⟨⟨0, [("other:bar", ⟨GobData.ofEntry [("value", GoVal.vstr "y")], none⟩)]⟩,
         []⟩).2.2, ∀ x ∈ ks, (((RedisCache.mk "app").Prefix ++ ":").data <+: x.data))
    ∧ (∀ w, ¬ ((((RedisCache.mk "app").Prefix ++ ":").data <+: w.data)) →
        ((((RedisCache.mk "app").EmptyByMatch "u"
          ⟨⟨0, [("other:bar", ⟨GobData.ofEntry [("value", GoVal.vstr "y")], none⟩)]⟩,
           []⟩).2.1.srv.keys).lookup w =
          ((⟨⟨0, [("other:bar", ⟨GobData.ofEntry [("value", GoVal.vstr "y")], none⟩)]⟩,
            []⟩ : St)).srv.keys.lookup w)
        ∧ ((((RedisCache.mk "app").Empty
          ⟨⟨0, [("other:bar", ⟨GobData.ofEntry [("value", GoVal.vstr "y")], none⟩)]⟩,
           []⟩).2.1.srv.keys).lookup w =
          ((⟨⟨0, [("other:bar", ⟨GobData.ofEntry [("value", GoVal.vstr "y")], none⟩)]⟩,
            []⟩ : St)).srv.keys.lookup w)) :=
  namespace_isolation (RedisCache.mk "app") "user" "u"
    ⟨⟨0, [("other:bar", ⟨GobData.ofEntry [("value", GoVal.vstr "y")], none⟩)]⟩, []⟩
    (by decide)

end Celeritas
